import Mathlib

/-!
Verification of the cloud-iam-policy-explorer core algorithms.

This file gives a shallow embedding of the analysis functions of the
repository and proves the specified properties about them:

* `analyzePolicyForShadowAdmin` (aws-handler module): permission closure,
  escalation-technique matching, static wildcard risk scanning, risk
  aggregation, over the static `ESCALATION_METHODS` catalog.
* `PolicyVisualizer.calculatePolicyDiff` (policy-visualizer module):
  structural diff of the action and resource sets of two documents.
* `PolicyExpansion` (policy-expansion module): wildcard pattern expansion
  against an action catalog, with an explicit initialization state machine.

JavaScript sets are modeled as lists with insertion-order deduplication
(`addMem`); JavaScript field absence is modeled with `Option`; the JS
falsiness of the empty string in field guards is modeled explicitly.
-/

set_option maxHeartbeats 1000000

/-- A JSON field that holds either a single string or an array of strings
(AWS policy grammar allows both for Action, NotAction, Resource). -/
abbrev JsStrings := Sum String (List String)

/-- An IAM policy statement as read by the analysis code.  Only the fields
the analyzed code accesses are modeled (Effect, Action, NotAction,
Resource); Sid and Condition are never read by any analyzed function. -/
structure Statement where
  Effect : Option String := none
  Action : Option JsStrings := none
  NotAction : Option JsStrings := none
  Resource : Option JsStrings := none
deriving DecidableEq

/-- The Statement field of a document: a single statement object or an
array of statements. -/
abbrev StmtVal := Sum Statement (List Statement)

/-- An IAM policy document.  `Statement := none` models a JSON document
with the Statement field absent (or null). -/
structure Document where
  Version : Option String := none
  Statement : Option StmtVal := none
deriving DecidableEq

/-- Mirrors `x ? (Array.isArray(x) ? x : [x]) : []`: absent field gives the
empty list, a single string wraps into a one-element list, an array is
kept.  The empty string is falsy in JS, hence also gives the empty list. -/
def toStrList : Option JsStrings → List String
  | none => []
  | some (.inl s) => if s = "" then [] else [s]
  | some (.inr l) => l

/-- Mirrors `Array.isArray(d.Statement) ? d.Statement : [d.Statement]`
once the guard has established the field is present. -/
def toStmtList : StmtVal → List Statement
  | .inl s => [s]
  | .inr l => l

/-- Mirrors `statement.Effect || "Allow"` (undefined and the empty string
are falsy). -/
def effectOf (stmt : Statement) : String :=
  match stmt.Effect with
  | none => "Allow"
  | some e => if e = "" then "Allow" else e

/-!
Character-list string operations.  The Lean core `String` functions
are implemented with well-founded recursion over byte positions and do
not reduce inside the kernel, so the embedding uses these structurally
recursive equivalents on `String.data`.  They agree with the JS string
methods on the ASCII action/permission strings processed here.
-/

/-- Models `s.toLowerCase()` (per-character ASCII lowering). -/
def jsToLower (s : String) : String :=
  String.mk (s.data.map Char.toLower)

/-- Models `s.includes(c)` for a single character. -/
def strHasChar (s : String) (c : Char) : Bool :=
  s.data.contains c

/-- Whether `ps` is a leading segment of `cs`. -/
def charsLeadWith : List Char → List Char → Bool
  | [], _ => true
  | _ :: _, [] => false
  | p :: ps, c :: cs => p == c && charsLeadWith ps cs

/-- Models `s.startsWith(t)`. -/
def strStartsWith (s t : String) : Bool :=
  charsLeadWith t.data s.data

/-- Models `s.endsWith(t)`. -/
def strEndsWith (s t : String) : Bool :=
  charsLeadWith t.data.reverse s.data.reverse

/-- Models `s.substring(n)`. -/
def strDrop (s : String) (n : Nat) : String :=
  String.mk (s.data.drop n)

/-- Mirrors `action.toLowerCase().replace(/\s/g, "")`: lowercase, then
remove every whitespace character. -/
def normalizeAction (a : String) : String :=
  String.mk ((jsToLower a).data.filter (fun c => !c.isWhitespace))

/-- Mirrors `s.split(':')[0]`: the segment before the first colon (the
whole string when there is no colon). -/
def splitHead (s : String) : String :=
  String.mk (s.data.takeWhile (fun c => c != ':'))

/-- JS `Set.add` on an insertion-ordered list representation: append the
element if it is not already present. -/
def addMem (l : List String) (x : String) : List String :=
  if l.contains x then l else l ++ [x]

/-- Catalog entry data for one escalation technique (the value part of an
`ESCALATION_METHODS` entry). -/
structure MethodInfo where
  permissions : List String
  optional : List String
  riskLevel : Nat
  category : String
  description : String
deriving DecidableEq

/-- The static `ESCALATION_METHODS` table (aws-handler module): every
technique name with its required permissions, optional permissions, risk
level, category and description, in source order. -/
def ESCALATION_METHODS : List (String × MethodInfo) := [
  ("CreateNewPolicyVersion", ⟨["iam:createpolicyversion"],
    ["iam:listattachedgrouppolicies", "iam:listattachedrolepolicies", "iam:listattacheduserpolicies"],
    10, "IAM Policy Manipulation",
    "Can create new policy version with admin permissions and set as default"⟩),
  ("SetExistingDefaultPolicyVersion", ⟨["iam:setdefaultpolicyversion"],
    ["iam:listpolicyversions", "iam:listattacheduserpolicies"],
    10, "IAM Policy Manipulation",
    "Can revert to previous policy version with higher privileges"⟩),
  ("AttachUserPolicy", ⟨["iam:attachuserpolicy"], ["iam:listusers"],
    10, "IAM Policy Manipulation",
    "Can attach AdministratorAccess policy to own user"⟩),
  ("AttachGroupPolicy", ⟨["iam:attachgrouppolicy"], ["iam:listgroupsforuser"],
    10, "IAM Policy Manipulation",
    "Can attach admin policy to a group user belongs to"⟩),
  ("AttachRolePolicy", ⟨["iam:attachrolepolicy", "sts:assumerole"], ["iam:listroles"],
    10, "IAM Policy Manipulation",
    "Can attach admin policy to an assumable role"⟩),
  ("PutUserPolicy", ⟨["iam:putuserpolicy"], ["iam:listuserpolicies"],
    10, "IAM Policy Manipulation",
    "Can create inline policy with admin permissions on own user"⟩),
  ("PutGroupPolicy", ⟨["iam:putgrouppolicy"], ["iam:listgrouppolicies"],
    10, "IAM Policy Manipulation",
    "Can create inline admin policy on a group user belongs to"⟩),
  ("PutRolePolicy", ⟨["iam:putrolepolicy", "sts:assumerole"], ["iam:listrolepolicies"],
    10, "IAM Policy Manipulation",
    "Can create inline admin policy on an assumable role"⟩),
  ("AddUserToGroup", ⟨["iam:addusertogroup"], ["iam:listgroups"],
    8, "Principal Manipulation",
    "Can add self to privileged group"⟩),
  ("CreateAccessKey", ⟨["iam:createaccesskey"], ["iam:listusers"],
    9, "Principal Manipulation",
    "Can create access keys for privileged users"⟩),
  ("CreateLoginProfile", ⟨["iam:createloginprofile"], ["iam:listusers"],
    8, "Principal Manipulation",
    "Can create console password for privileged users"⟩),
  ("UpdateLoginProfile", ⟨["iam:updateloginprofile"], ["iam:listusers"],
    8, "Principal Manipulation",
    "Can reset console password for privileged users"⟩),
  ("UpdateRolePolicyToAssumeIt", ⟨["iam:updateassumerolepolicy", "sts:assumerole"], ["iam:listroles"],
    9, "Principal Manipulation",
    "Can modify role trust policy to assume privileged role"⟩),
  ("PassRoleToEC2", ⟨["iam:passrole", "ec2:runinstances"], ["iam:listinstanceprofiles"],
    9, "PassRole Escalation",
    "Can pass privileged role to EC2 and extract credentials"⟩),
  ("PassRoleToLambda", ⟨["iam:passrole", "lambda:createfunction", "lambda:invokefunction"], ["iam:listroles"],
    10, "PassRole Escalation",
    "Can create Lambda with privileged role and invoke it"⟩),
  ("PassRoleToLambdaDynamoDB", ⟨["iam:passrole", "lambda:createfunction", "lambda:createeventsourcemapping", "dynamodb:putitem"], ["dynamodb:createtable"],
    9, "PassRole Escalation",
    "Can create Lambda with privileged role triggered by DynamoDB"⟩),
  ("UpdateLambdaFunction", ⟨["lambda:updatefunctioncode"], ["lambda:listfunctions", "lambda:invokefunction"],
    9, "PassRole Escalation",
    "Can modify existing Lambda function with privileged role"⟩),
  ("PassRoleToGlue", ⟨["iam:passrole", "glue:createdevendpoint"], ["glue:getdevendpoint", "iam:listroles"],
    9, "PassRole Escalation",
    "Can create Glue Dev Endpoint with privileged role"⟩),
  ("UpdateGlueDevEndpoint", ⟨["glue:updatedevendpoint"], ["glue:describedevendpoints"],
    8, "PassRole Escalation",
    "Can add SSH key to existing Glue Dev Endpoint"⟩),
  ("PassRoleToCloudFormation", ⟨["iam:passrole", "cloudformation:createstack"], ["cloudformation:describestacks", "iam:listroles"],
    9, "PassRole Escalation",
    "Can create CloudFormation stack with privileged role"⟩),
  ("PassRoleToDataPipeline", ⟨["iam:passrole", "datapipeline:createpipeline", "datapipeline:putpipelinedefinition"], ["iam:listroles"],
    8, "PassRole Escalation",
    "Can create Data Pipeline with privileged role"⟩),
  ("PassRoleToCodeStar", ⟨["iam:passrole", "codestar:createproject"], [],
    7, "PassRole Escalation",
    "Can create CodeStar project with privileged role"⟩),
  ("CodeStarCreateProjectFromTemplate", ⟨["codestar:createprojectfromtemplate"], [],
    7, "Special Methods",
    "Undocumented CodeStar API providing elevated permissions"⟩),
  ("CodeStarAssociateTeamMember", ⟨["codestar:createproject", "codestar:associateteammember"], [],
    7, "Special Methods",
    "Can gain enumeration permissions through CodeStar Owner role"⟩)]

/-- A security issue as produced by the analyzer. -/
structure Issue where
  type : String
  severity : String
  statementIndex : Int
  title : String
  description : String
  category : Option String := none
  remediation : String
deriving DecidableEq

/-- A detected escalation method entry: `{ method: name, ...methodInfo }`. -/
structure DetectedMethod where
  method : String
  permissions : List String
  optional : List String
  riskLevel : Nat
  category : String
  description : String
deriving DecidableEq

/-- Per-severity issue counts plus detected-method count. -/
structure Stats where
  totalIssues : Nat
  criticalIssues : Nat
  highIssues : Nat
  mediumIssues : Nat
  escalationMethods : Nat
deriving DecidableEq

/-- The value returned by `analyzePolicyForShadowAdmin`.  The degenerate
early return carries no `stats` field, modeled by `none`. -/
structure AnalysisResult where
  issues : List Issue
  riskLevel : Nat
  detectedMethods : List DetectedMethod
  summary : String
  stats : Option Stats
deriving DecidableEq

/-- The FULL_ADMIN issue pushed for statement `idx`. -/
def fullAdminIssue (idx : Nat) : Issue :=
  { type := "FULL_ADMIN", severity := "critical", statementIndex := Int.ofNat idx,
    title := "Full Administrator Access",
    description := "This statement grants Action: \"*\" on Resource: \"*\" - full admin permissions",
    remediation := "Restrict to specific actions and resources required for the task" }

/-- The document-level WILDCARD_ACTION issue. -/
def wildcardActionIssue : Issue :=
  { type := "WILDCARD_ACTION", severity := "high", statementIndex := -1,
    title := "Wildcard Actions Detected",
    description := "Policy contains wildcard (*) in Action field which may grant excessive permissions",
    remediation := "Use specific action names instead of wildcards" }

/-- The document-level WILDCARD_RESOURCE issue. -/
def wildcardResourceIssue : Issue :=
  { type := "WILDCARD_RESOURCE", severity := "medium", statementIndex := -1,
    title := "Wildcard Resources Detected",
    description := "Policy contains wildcard (*) in Resource field which applies to all resources",
    remediation := "Restrict to specific resource ARNs when possible" }

/-- The PRIVILEGE_ESCALATION issue for a detected technique. -/
def escIssue (name : String) (info : MethodInfo) : Issue :=
  { type := "PRIVILEGE_ESCALATION",
    severity := if info.riskLevel ≥ 9 then "critical" else "high",
    statementIndex := -1,
    title := "Privilege Escalation: " ++ name,
    description := info.description,
    category := some info.category,
    remediation := "Remove or restrict: " ++
      String.intercalate ", " (info.permissions.map jsToLower) }

/-- The detected-method record `{ method: name, ...methodInfo }`. -/
def mkDetected (name : String) (info : MethodInfo) : DetectedMethod :=
  { method := name, permissions := info.permissions, optional := info.optional,
    riskLevel := info.riskLevel, category := info.category,
    description := info.description }

/-- Accumulated state of the statement scan loop: issue list, allowed and
denied permission sets (as insertion-ordered lists), the two wildcard
flags and the running maximum risk level. -/
structure ScanState where
  issues : List Issue
  allowed : List String
  denied : List String
  hasWildcardAction : Bool
  hasWildcardResource : Bool
  maxRiskLevel : Nat
deriving DecidableEq

/-- The initial scan state. -/
def initScan : ScanState :=
  { issues := [], allowed := [], denied := [], hasWildcardAction := false,
    hasWildcardResource := false, maxRiskLevel := 0 }

/-- Add to `allowed` every catalog permission starting with `pre` (the
nested `Object.keys(ESCALATION_METHODS).forEach` loops). -/
def addPermsWithPre (pre : String) (allowed : List String) : List String :=
  ESCALATION_METHODS.foldl
    (fun acc e => e.2.permissions.foldl
      (fun acc2 p => if strStartsWith p pre then addMem acc2 p else acc2) acc)
    allowed

/-- Grow the allowed set with one allowed action: add its normalized form,
then, for wildcard actions, eagerly add the catalog permissions granted by
`iam:*` or by a `service:*` pattern. -/
def allowGrow (allowed : List String) (action : String) : List String :=
  let normalized := normalizeAction action
  let allowed := addMem allowed normalized
  if strHasChar action '*' then
    let allowed := if normalized = "iam:*" then addPermsWithPre "iam:" allowed else allowed
    let servicePart := splitHead normalized
    if servicePart ≠ "" ∧ strEndsWith normalized ":*" then
      addPermsWithPre (servicePart ++ ":") allowed
    else allowed
  else allowed

/-- The inner `actions.forEach` loop of the scan: collect each action into
the allowed set (with wildcard expansion) or the denied set, according to
the statement effect. -/
def collectPerms (effect : String) (actions : List String)
    (allowed denied : List String) : List String × List String :=
  actions.foldl
    (fun acc a =>
      if effect = "Allow" then (allowGrow acc.1 a, acc.2)
      else if effect = "Deny" then (acc.1, addMem acc.2 (normalizeAction a))
      else acc)
    (allowed, denied)

/-- Process one statement at index `idx`: the wildcard checks (including
the statement-scoped FULL_ADMIN issue) followed by permission collection. -/
def processStmt (st : ScanState) (idx : Nat) (stmt : Statement) : ScanState :=
  let effect := effectOf stmt
  let actions := toStrList stmt.Action
  let resources := toStrList stmt.Resource
  let st1 :=
    if actions.contains "*" then
      let stw := { st with hasWildcardAction := true }
      if resources.contains "*" ∧ effect = "Allow" then
        { stw with issues := stw.issues ++ [fullAdminIssue idx], maxRiskLevel := 10 }
      else stw
    else st
  let st2 := if resources.contains "*" then { st1 with hasWildcardResource := true } else st1
  let pr := collectPerms effect actions st2.allowed st2.denied
  { st2 with allowed := pr.1, denied := pr.2 }

/-- The `statements.forEach((statement, idx) => ...)` loop. -/
def scanGo : List Statement → Nat → ScanState → ScanState
  | [], _, st => st
  | s :: rest, idx, st => scanGo rest (idx + 1) (processStmt st idx s)

/-- The two document-level wildcard checks performed after the scan loop
(each suppressed when a FULL_ADMIN issue is already present). -/
def wildcardPhase (st : ScanState) : ScanState :=
  let st :=
    if st.hasWildcardAction ∧ ¬ st.issues.any (fun i => i.type == "FULL_ADMIN") then
      { st with issues := st.issues ++ [wildcardActionIssue],
                maxRiskLevel := max st.maxRiskLevel 8 }
    else st
  if st.hasWildcardResource ∧ ¬ st.issues.any (fun i => i.type == "FULL_ADMIN") then
    { st with issues := st.issues ++ [wildcardResourceIssue],
              maxRiskLevel := max st.maxRiskLevel 6 }
  else st

/-- The `hasAllRequired` check: every required permission is in `allowed`, or the
universal wildcard is allowed, or the service wildcard of the permission
is allowed. -/
def reqSat (allowed : List String) (info : MethodInfo) : Bool :=
  (info.permissions.map jsToLower).all fun perm =>
    allowed.contains perm || allowed.contains "*" ||
      allowed.contains (splitHead perm ++ ":*")

/-- The `hasAnyDenied` check: some required permission is in `denied`. -/
def anyDenied (denied : List String) (info : MethodInfo) : Bool :=
  (info.permissions.map jsToLower).any fun perm => denied.contains perm

/-- A technique is detected when all required permissions are satisfied
and none is denied. -/
def matchCond (allowed denied : List String) (info : MethodInfo) : Bool :=
  reqSat allowed info && !anyDenied denied info

/-- The `Object.entries(ESCALATION_METHODS).forEach` matching loop,
accumulating issues, the maximum risk level and the detected methods. -/
def matchGo (allowed denied : List String) :
    List (String × MethodInfo) → List Issue → Nat → List DetectedMethod →
    List Issue × Nat × List DetectedMethod
  | [], issues, risk, detected => (issues, risk, detected)
  | e :: rest, issues, risk, detected =>
    if matchCond allowed denied e.2 then
      matchGo allowed denied rest (issues ++ [escIssue e.1 e.2])
        (max risk e.2.riskLevel) (detected ++ [mkDetected e.1 e.2])
    else
      matchGo allowed denied rest issues risk detected

/-- The summary string selected from the final risk level, issue count and
detected-method count. -/
def mkSummary (risk issuesLen detectedLen : Nat) : String :=
  if risk = 10 then "CRITICAL: Full admin or direct privilege escalation possible"
  else if risk ≥ 8 then
    "HIGH RISK: " ++ toString detectedLen ++ " privilege escalation method(s) detected"
  else if risk ≥ 5 then "MEDIUM RISK: Some dangerous permissions present"
  else if issuesLen > 0 then "LOW RISK: Minor security concerns detected"
  else "No significant security issues detected"

/-- The stats block of a full analysis result. -/
def mkStats (issues : List Issue) (detected : List DetectedMethod) : Stats :=
  { totalIssues := issues.length,
    criticalIssues := (issues.filter (fun i => i.severity == "critical")).length,
    highIssues := (issues.filter (fun i => i.severity == "high")).length,
    mediumIssues := (issues.filter (fun i => i.severity == "medium")).length,
    escalationMethods := detected.length }

/-- The early return for a null document or a document without a
Statement field. -/
def degenerateResult : AnalysisResult :=
  { issues := [], riskLevel := 0, detectedMethods := [],
    summary := "No policy statements found", stats := none }

/-- The permission closure (scan state) of a document: empty for
degenerate input, otherwise the result of the statement scan loop. -/
def closureOf : Option Document → ScanState
  | none => initScan
  | some d =>
    match d.Statement with
    | none => initScan
    | some sv => scanGo (toStmtList sv) 0 initScan

/-- Models `analyzePolicyForShadowAdmin(policyDocument)`: the complete analysis,
composed of the statement scan, the document-level wildcard checks, the
escalation matching loop and the summary/stats aggregation. -/
def analyzePolicyForShadowAdmin (pd : Option Document) : AnalysisResult :=
  match pd with
  | none => degenerateResult
  | some d =>
    match d.Statement with
    | none => degenerateResult
    | some sv =>
      let st := wildcardPhase (scanGo (toStmtList sv) 0 initScan)
      let r := matchGo st.allowed st.denied ESCALATION_METHODS st.issues st.maxRiskLevel []
      { issues := r.1, riskLevel := r.2.1, detectedMethods := r.2.2,
        summary := mkSummary r.2.1 r.1.length r.2.2.length,
        stats := some (mkStats r.1 r.2.2) }

namespace PolicyVisualizer

/-- One category of the diff (actions or resources). -/
structure DiffCat where
  added : List String
  removed : List String
  unchanged : List String
  modified : List String
deriving DecidableEq

/-- The statements part of the diff; never populated by the code. -/
structure StmtsDiff where
  added : List Statement
  removed : List Statement
  modified : List Statement
deriving DecidableEq

/-- The value returned by `calculatePolicyDiff`. -/
structure VersionDiff where
  actions : DiffCat
  resources : DiffCat
  statements : StmtsDiff
  addedCount : Nat
  removedCount : Nat
  modifiedCount : Nat
deriving DecidableEq

/-- The initial (empty) diff value, also the early return when either
document is null. -/
def emptyDiff : VersionDiff :=
  { actions := ⟨[], [], [], []⟩, resources := ⟨[], [], [], []⟩,
    statements := ⟨[], [], []⟩, addedCount := 0, removedCount := 0,
    modifiedCount := 0 }

/-- Models `Array.isArray(doc.Statement) ? doc.Statement : [doc.Statement]` with
no presence guard: a document without a Statement field yields the
one-element list `[undefined]`, modeled as `[none]`. -/
def stmtListJS (d : Document) : List (Option Statement) :=
  match d.Statement with
  | none => [none]
  | some (.inl s) => [some s]
  | some (.inr l) => l.map some

/-- Fold one statement into the accumulated action and resource sets. -/
def collectStep (acc : List String × List String) (st : Statement) :
    List String × List String :=
  ((toStrList st.Action).foldl addMem acc.1,
   (toStrList st.Resource).foldl addMem acc.2)

/-- Collect the action and resource sets of a statement list, raising the
TypeError the JS code hits when an element is `undefined` (a property
read on `undefined`). -/
def collectGo : List (Option Statement) → List String × List String →
    Except String (List String × List String)
  | [], acc => .ok acc
  | none :: _, _ => .error "TypeError: Cannot read properties of undefined"
  | some st :: rest, acc => collectGo rest (collectStep acc st)

/-- The `set1.forEach` pass: split into (removed, unchanged) against
`set2`, in insertion order. -/
def splitRemoved (set1 set2 : List String) : List String × List String :=
  set1.foldl
    (fun acc a => if set2.contains a then (acc.1, acc.2 ++ [a]) else (acc.1 ++ [a], acc.2))
    ([], [])

/-- The `set2.forEach` pass: the elements of `set2` absent from `set1`. -/
def computeAdded (set1 set2 : List String) : List String :=
  set2.foldl (fun acc a => if set1.contains a then acc else acc ++ [a]) []

/-- Models `PolicyVisualizer.calculatePolicyDiff(doc1, doc2)`.  Returns the empty
diff when either document is null; throws (models as `.error`) when a
document has no Statement field, because the code then iterates over
`[undefined]` and reads `.Action` of `undefined`. -/
def calculatePolicyDiff (doc1 doc2 : Option Document) :
    Except String VersionDiff :=
  match doc1, doc2 with
  | none, _ => .ok emptyDiff
  | some _, none => .ok emptyDiff
  | some d1, some d2 =>
    match collectGo (stmtListJS d1) ([], []) with
    | .error e => .error e
    | .ok p1 =>
      match collectGo (stmtListJS d2) ([], []) with
      | .error e => .error e
      | .ok p2 =>
        let aSplit := splitRemoved p1.1 p2.1
        let aAdded := computeAdded p1.1 p2.1
        let rSplit := splitRemoved p1.2 p2.2
        let rAdded := computeAdded p1.2 p2.2
        .ok { actions := ⟨aAdded, aSplit.1, aSplit.2, []⟩,
              resources := ⟨rAdded, rSplit.1, rSplit.2, []⟩,
              statements := ⟨[], [], []⟩,
              addedCount := aAdded.length + rAdded.length,
              removedCount := aSplit.1.length + rSplit.1.length,
              modifiedCount := 0 }

end PolicyVisualizer

namespace PolicyExpansion

/-- Per-service data of the action catalog (`serviceMap` entry value).
The source field name is `StringPrefix`; it is renamed here to
`prefixStr`. -/
structure ServiceData where
  prefixStr : String
  Actions : List String
deriving DecidableEq

/-- The action catalog: the entries of `awsData.serviceMap` in object
insertion order. -/
abbrev Catalog := List (String × ServiceData)

/-- Models `buildActionsIndex`: flatten the catalog into a list of
`prefix:action` strings. -/
def buildActionsIndex (cat : Catalog) : List String :=
  cat.foldl (fun acc e => acc ++ e.2.Actions.map (fun a => e.2.prefixStr ++ ":" ++ a)) []

/-- Fuel-driven anchored glob matching on character lists, where `*`
matches any (possibly empty) character sequence.  The fuel argument makes
the recursion structural so that the kernel can evaluate it; `globMatch`
supplies fuel strictly greater than the combined length, which every
recursive call decreases, so the fuel never runs out. -/
def globMatchFuel : Nat → List Char → List Char → Bool
  | 0, _, _ => false
  | _ + 1, [], cs => cs.isEmpty
  | f + 1, '*' :: ps, [] => globMatchFuel f ps []
  | f + 1, '*' :: ps, c :: cs =>
    globMatchFuel f ps (c :: cs) || globMatchFuel f ('*' :: ps) cs
  | _ + 1, _ :: _, [] => false
  | f + 1, p :: ps, c :: cs => p == c && globMatchFuel f ps cs

/-- Anchored glob matching.  This models the JS regex built by
`cleanPattern.replace(/\*/g, ".*")` anchored with `^`/`$`, exactly for
patterns whose non-`*` characters carry no other regex metacharacter
meaning (true of every `service:action` pattern used here). -/
def globMatch (ps cs : List Char) : Bool :=
  globMatchFuel (ps.length + cs.length + 1) ps cs

/-- The case-insensitive anchored regex test of `expandPattern`. -/
def regexTestCI (pat s : String) : Bool :=
  globMatch (jsToLower pat).data (jsToLower s).data

/-- The expansion record of one action pattern. -/
structure Expansion where
  originalPattern : String
  hasWildcard : Bool
  expandedActions : List String
  expandedCount : Nat
  sampleActions : List String
  isNotAction : Bool
deriving DecidableEq

/-- Models `expandPattern(actionPattern)`: exact patterns expand to themselves;
wildcard patterns are matched case-insensitively against the flattened
action index, falling back to the literal pattern on zero matches. -/
def expandPattern (allActions : List String) (actionPattern : String) : Expansion :=
  let hasWildcard := strHasChar actionPattern '*'
  let isNotAction := strStartsWith actionPattern "NOT:"
  let cleanPattern := if isNotAction then strDrop actionPattern 4 else actionPattern
  let expandedActions :=
    if hasWildcard then
      let matched := allActions.filter (fun a => regexTestCI cleanPattern a)
      if matched = [] then [cleanPattern] else matched
    else [cleanPattern]
  { originalPattern := actionPattern, hasWildcard := hasWildcard,
    expandedActions := expandedActions,
    expandedCount := expandedActions.length,
    sampleActions := expandedActions.take 5, isNotAction := isNotAction }

/-- Models `getServiceFromAction(action)`: display name of the first catalog
service whose string prefix equals the segment before the colon. -/
def getServiceFromAction (cat : Catalog) (action : String) : String :=
  match cat.find? (fun e => e.2.prefixStr == splitHead action) with
  | some e => e.1
  | none => "Unknown Service"

/-- Ordered insertion into a sorted string list. -/
def insertSorted (a : String) : List String → List String
  | [] => [a]
  | y :: ys => if a ≤ y then a :: y :: ys else y :: insertSorted a ys

/-- Insertion sort modeling `Array.from(set).sort()` (JS default sort is
lexicographic on code units). -/
def sortStrings : List String → List String
  | [] => []
  | x :: xs => insertSorted x (sortStrings xs)

/-- The per-statement analysis record of `analyzeStatement`. -/
structure StmtAnalysis where
  index : Nat
  effect : String
  patterns : List String
  wildcardPatterns : Nat
  exactPatterns : Nat
  totalExpandedActions : Nat
  servicesAffected : List String
  expansions : List Expansion
deriving DecidableEq

/-- Models `analyzeStatement(statement, index)`: gather the Action and NotAction
patterns (the latter tagged `NOT:`), expand each one and aggregate the
counts and affected services. -/
def analyzeStatement (cat : Catalog) (allActions : List String)
    (stmt : Statement) (index : Nat) : StmtAnalysis :=
  let patterns := toStrList stmt.Action ++
    (toStrList stmt.NotAction).map (fun a => "NOT:" ++ a)
  let folded := patterns.foldl
    (fun (acc : List Expansion × Nat × Nat × Nat × List String) pat =>
      let e := expandPattern allActions pat
      (acc.1 ++ [e],
       acc.2.1 + (if e.hasWildcard then 1 else 0),
       acc.2.2.1 + (if e.hasWildcard then 0 else 1),
       acc.2.2.2.1 + e.expandedCount,
       e.expandedActions.foldl (fun svcs a => addMem svcs (getServiceFromAction cat a)) acc.2.2.2.2))
    ([], 0, 0, 0, [])
  { index := index + 1, effect := effectOf stmt, patterns := patterns,
    wildcardPatterns := folded.2.1, exactPatterns := folded.2.2.1,
    totalExpandedActions := folded.2.2.2.1,
    servicesAffected := sortStrings folded.2.2.2.2,
    expansions := folded.1 }

/-- The document-level summary of an expansion analysis.  The JS
floating-point division for `expansionRatio` is modeled with rationals. -/
structure ExpSummary where
  totalStatements : Nat
  totalPatterns : Nat
  wildcardPatterns : Nat
  exactPatterns : Nat
  totalExpandedActions : Nat
  expansionRatio : Rat
  servicesAffected : List String
deriving DecidableEq

/-- The value returned by a successful `analyzePolicy` call. -/
structure ExpansionResult where
  isValid : Bool
  errors : List String
  summary : ExpSummary
  statements : List StmtAnalysis
deriving DecidableEq

/-- The engine state: loaded catalog, flattened action index and the
initialization flag. -/
structure PEState where
  awsData : Option Catalog
  allActions : List String
  isInitialized : Bool
deriving DecidableEq

/-- The state of a freshly constructed engine. -/
def PEState.start : PEState :=
  { awsData := none, allActions := [], isInitialized := false }

/-- The source `initialize()` method after a successful catalog load:
no-op when already initialized, otherwise store the catalog, build the
action index and set the flag. -/
def initEngine (s : PEState) (cat : Catalog) : PEState :=
  if s.isInitialized then s
  else { awsData := some cat, allActions := buildActionsIndex cat,
         isInitialized := true }

/-- Models `analyzePolicy(policyDocument)`: throws (modeled as `.error`) before
initialization; afterwards returns an `ExpansionResult`, flagging a
missing Statement field as invalid rather than throwing. -/
def analyzePolicy (s : PEState) (pd : Option Document) :
    Except String ExpansionResult :=
  if !s.isInitialized then
    .error "PolicyExpansion not initialized. Call initialize() first."
  else
    let cat := s.awsData.getD []
    let zero : ExpSummary :=
      { totalStatements := 0, totalPatterns := 0, wildcardPatterns := 0,
        exactPatterns := 0, totalExpandedActions := 0, expansionRatio := 0,
        servicesAffected := [] }
    let invalid : ExpansionResult :=
      { isValid := false, errors := ["Policy must contain a Statement field"],
        summary := zero, statements := [] }
    match pd with
    | none => .ok invalid
    | some d =>
      match d.Statement with
      | none => .ok invalid
      | some sv =>
        let stmts := toStmtList sv
        let folded := (stmts.enum.map (fun p => analyzeStatement cat s.allActions p.2 p.1)).foldl
          (fun (acc : List StmtAnalysis × Nat × Nat × Nat × Nat × List String) sa =>
            (acc.1 ++ [sa], acc.2.1 + sa.patterns.length,
             acc.2.2.1 + sa.wildcardPatterns, acc.2.2.2.1 + sa.exactPatterns,
             acc.2.2.2.2.1 + sa.totalExpandedActions,
             sa.servicesAffected.foldl addMem acc.2.2.2.2.2))
          ([], 0, 0, 0, 0, [])
        let summ : ExpSummary :=
          { totalStatements := stmts.length,
            totalPatterns := folded.2.1,
            wildcardPatterns := folded.2.2.1,
            exactPatterns := folded.2.2.2.1,
            totalExpandedActions := folded.2.2.2.2.1,
            expansionRatio := if folded.2.1 > 0 then
              (folded.2.2.2.2.1 : Rat) / (folded.2.1 : Rat) else 0,
            servicesAffected := sortStrings folded.2.2.2.2.2 }
        .ok { isValid := true, errors := [], summary := summ, statements := folded.1 }

/-- Models `getImpactLevel(expansionRatio)`: bucket the ratio. -/
def getImpactLevel (r : Rat) : String :=
  if r ≥ 100 then "critical"
  else if r ≥ 50 then "high"
  else if r ≥ 10 then "medium"
  else "low"

end PolicyExpansion

/-! ### Concrete documents used as witnesses and counterexamples -/

/-- All statements of a document as the analyzer sees them (empty for
degenerate input). -/
def docStmtsOf : Option Document → List Statement
  | none => []
  | some d =>
    match d.Statement with
    | none => []
    | some sv => toStmtList sv

/-- A two-statement document whose second statement grants `*` on `*`. -/
def fullAdminDoc : Document :=
  { Statement := some (.inr [
      { Effect := some "Allow", Action := some (.inl "s3:GetObject"),
        Resource := some (.inl "arn:aws:s3:::b/key") },
      { Effect := some "Allow", Action := some (.inr ["*"]),
        Resource := some (.inr ["*"]) }]) }

/-- A document granting only the action `iam:*`. -/
def iamStarDoc : Document :=
  { Statement := some (.inl
      { Effect := some "Allow", Action := some (.inl "iam:*"),
        Resource := some (.inl "arn:aws:iam::123456789012:user/alice") }) }

/-- Allow `iam:attachuserpolicy` but explicitly deny the same permission
in a separate statement. -/
def denyExactDoc : Document :=
  { Statement := some (.inr [
      { Effect := some "Allow", Action := some (.inl "iam:attachuserpolicy") },
      { Effect := some "Deny", Action := some (.inl "iam:AttachUserPolicy") }]) }

/-- Allow `iam:attachuserpolicy` with a separate `Deny iam:*` statement. -/
def denyIamStarDoc : Document :=
  { Statement := some (.inr [
      { Effect := some "Allow", Action := some (.inl "iam:attachuserpolicy") },
      { Effect := some "Deny", Action := some (.inl "iam:*") }]) }

/-- Allow `iam:attachuserpolicy` with a separate `Deny *` statement. -/
def denyStarDoc : Document :=
  { Statement := some (.inr [
      { Effect := some "Allow", Action := some (.inl "iam:attachuserpolicy") },
      { Effect := some "Deny", Action := some (.inl "*") }]) }

/-- One statement with a specific action but a wildcard resource. -/
def wildcardResourceDoc : Document :=
  { Statement := some (.inl
      { Effect := some "Allow", Action := some (.inl "s3:getobject"),
        Resource := some (.inl "*") }) }

/-- A document with a Version field but no Statement field. -/
def noStatementDoc : Document :=
  { Version := some "2012-10-17" }

/-- First version-diff sample document. -/
def diffDocA : Document :=
  { Statement := some (.inr [
      { Effect := some "Allow", Action := some (.inr ["s3:GetObject", "s3:PutObject"]),
        Resource := some (.inl "arn:aws:s3:::b1") }]) }

/-- Second version-diff sample document. -/
def diffDocB : Document :=
  { Statement := some (.inr [
      { Effect := some "Allow", Action := some (.inr ["s3:GetObject", "iam:PassRole"]),
        Resource := some (.inr ["arn:aws:s3:::b1", "arn:aws:s3:::b2"]) }]) }

/-- The three-action S3 catalog of the wildcard-expansion property. -/
def s3Catalog : PolicyExpansion.Catalog :=
  [("S3", { prefixStr := "s3", Actions := ["GetObject", "PutObject", "ListBucket"] })]

/-- One statement with a specific action and a specific resource. -/
def safeDoc : Document :=
  { Statement := some (.inl
      { Effect := some "Allow", Action := some (.inl "s3:getobject"),
        Resource := some (.inl "arn:aws:s3:::b/key") }) }

/-- The canonical allowed set produced by a document that only grants
`iam:*`: the wildcard itself plus every catalog permission with the `iam:`
service prefix. -/
def iamModelAllowed : List String :=
  "iam:*" :: (ESCALATION_METHODS.flatMap (fun e => e.2.permissions)).filter
    (fun p => strStartsWith p "iam:")

/-! ### Membership lemmas for the list-backed sets -/

theorem mem_addMem {l : List String} {x y : String} :
    y ∈ addMem l x ↔ y ∈ l ∨ y = x := by
  unfold addMem
  split
  · rename_i h
    constructor
    · exact Or.inl
    · rintro (hy | rfl)
      · exact hy
      · simpa using h
  · simp [List.mem_append]

theorem addMem_subset {l : List String} {x y : String} (h : y ∈ l) :
    y ∈ addMem l x :=
  mem_addMem.mpr (Or.inl h)

theorem mem_permsFold {pre : String} {perms : List String} {l : List String} {y : String} :
    y ∈ perms.foldl (fun acc2 p => if strStartsWith p pre then addMem acc2 p else acc2) l ↔
      y ∈ l ∨ (y ∈ perms ∧ strStartsWith y pre = true) := by
  induction perms generalizing l with
  | nil => simp
  | cons p rest ih =>
    simp only [List.foldl_cons]
    by_cases hp : strStartsWith p pre = true
    · rw [if_pos hp, ih]
      constructor
      · rintro (h | h)
        · rcases mem_addMem.mp h with h2 | rfl
          · exact Or.inl h2
          · exact Or.inr ⟨List.mem_cons_self _ _, hp⟩
        · exact Or.inr ⟨List.mem_cons_of_mem _ h.1, h.2⟩
      · rintro (h | ⟨hm, hs⟩)
        · exact Or.inl (addMem_subset h)
        · rcases List.mem_cons.mp hm with rfl | hm2
          · exact Or.inl (mem_addMem.mpr (Or.inr rfl))
          · exact Or.inr ⟨hm2, hs⟩
    · rw [if_neg hp, ih]
      constructor
      · rintro (h | ⟨hm, hs⟩)
        · exact Or.inl h
        · exact Or.inr ⟨List.mem_cons_of_mem _ hm, hs⟩
      · rintro (h | ⟨hm, hs⟩)
        · exact Or.inl h
        · rcases List.mem_cons.mp hm with rfl | hm2
          · exact absurd hs hp
          · exact Or.inr ⟨hm2, hs⟩

theorem mem_entriesFold {pre : String} {entries : List (String × MethodInfo)}
    {l : List String} {y : String} :
    y ∈ entries.foldl
        (fun acc e => e.2.permissions.foldl
          (fun acc2 p => if strStartsWith p pre then addMem acc2 p else acc2) acc) l ↔
      y ∈ l ∨ ∃ e ∈ entries, y ∈ e.2.permissions ∧ strStartsWith y pre = true := by
  induction entries generalizing l with
  | nil => simp
  | cons e rest ih =>
    simp only [List.foldl_cons]
    rw [ih, mem_permsFold]
    simp only [List.exists_mem_cons_iff]
    tauto

theorem mem_addPermsWithPre {pre : String} {l : List String} {y : String} :
    y ∈ addPermsWithPre pre l ↔
      y ∈ l ∨ ∃ e ∈ ESCALATION_METHODS, y ∈ e.2.permissions ∧ strStartsWith y pre = true := by
  unfold addPermsWithPre
  exact mem_entriesFold

theorem allowGrow_mono {allowed : List String} {a y : String} (h : y ∈ allowed) :
    y ∈ allowGrow allowed a := by
  simp only [allowGrow]
  split_ifs <;>
    simp only [mem_addPermsWithPre, mem_addMem] <;> tauto

theorem mem_allowGrow_iamStar {allowed : List String} {y : String} :
    y ∈ allowGrow allowed "iam:*" ↔
      y ∈ allowed ∨ y = "iam:*" ∨
        ∃ e ∈ ESCALATION_METHODS, y ∈ e.2.permissions ∧ strStartsWith y "iam:" = true := by
  have hn : normalizeAction "iam:*" = "iam:*" := by decide
  have hsh : splitHead "iam:*" = "iam" := by decide
  have happ : ("iam" : String) ++ ":" = "iam:" := by decide
  simp only [allowGrow, hn, hsh, happ]
  have h1 : (("iam" : String) ≠ "" ∧ strEndsWith "iam:*" ":*" = true) := by decide
  rw [if_pos (by decide : strHasChar "iam:*" '*' = true)]
  rw [if_pos h1, if_pos trivial]
  rw [mem_addPermsWithPre, mem_addPermsWithPre, mem_addMem]
  tauto

/-! ### Scan-phase lemmas -/

theorem collectPerms_allow {actions al de : List String} :
    collectPerms "Allow" actions al de = (actions.foldl allowGrow al, de) := by
  unfold collectPerms
  induction actions generalizing al with
  | nil => rfl
  | cons a rest ih =>
    simp only [List.foldl_cons, if_pos rfl]
    exact ih

theorem collectPerms_deny {actions al de : List String} :
    collectPerms "Deny" actions al de =
      (al, actions.foldl (fun d a => addMem d (normalizeAction a)) de) := by
  unfold collectPerms
  induction actions generalizing de with
  | nil => rfl
  | cons a rest ih =>
    simp only [List.foldl_cons, if_neg (by decide : ¬ ("Deny" : String) = "Allow"), if_pos rfl]
    exact ih

theorem collectPerms_other {e : String} (h1 : e ≠ "Allow") (h2 : e ≠ "Deny")
    (actions al de : List String) :
    collectPerms e actions al de = (al, de) := by
  unfold collectPerms
  induction actions with
  | nil => rfl
  | cons a rest ih =>
    rw [List.foldl_cons, if_neg h1, if_neg h2]
    exact ih

theorem processStmt_allowed (st : ScanState) (idx : Nat) (s : Statement) :
    (processStmt st idx s).allowed =
      (collectPerms (effectOf s) (toStrList s.Action) st.allowed st.denied).1 := by
  simp only [processStmt]
  split_ifs <;> rfl

theorem processStmt_denied (st : ScanState) (idx : Nat) (s : Statement) :
    (processStmt st idx s).denied =
      (collectPerms (effectOf s) (toStrList s.Action) st.allowed st.denied).2 := by
  simp only [processStmt]
  split_ifs <;> rfl

theorem processStmt_issues (st : ScanState) (idx : Nat) (s : Statement) :
    (processStmt st idx s).issues =
      if (toStrList s.Action).contains "*" then
        if (toStrList s.Resource).contains "*" ∧ effectOf s = "Allow" then
          st.issues ++ [fullAdminIssue idx]
        else st.issues
      else st.issues := by
  simp only [processStmt]
  split_ifs <;> rfl

theorem processStmt_risk (st : ScanState) (idx : Nat) (s : Statement) :
    (processStmt st idx s).maxRiskLevel =
      if (toStrList s.Action).contains "*" then
        if (toStrList s.Resource).contains "*" ∧ effectOf s = "Allow" then 10
        else st.maxRiskLevel
      else st.maxRiskLevel := by
  simp only [processStmt]
  split_ifs <;> rfl

theorem processStmt_hasWA (st : ScanState) (idx : Nat) (s : Statement) :
    (processStmt st idx s).hasWildcardAction =
      if (toStrList s.Action).contains "*" then true else st.hasWildcardAction := by
  simp only [processStmt]
  split_ifs <;> rfl

theorem processStmt_hasWR (st : ScanState) (idx : Nat) (s : Statement) :
    (processStmt st idx s).hasWildcardResource =
      if (toStrList s.Resource).contains "*" then true else st.hasWildcardResource := by
  simp only [processStmt]
  split_ifs <;> rfl

theorem scanGo_issues_mono {stmts : List Statement} {idx : Nat} {st : ScanState}
    {i : Issue} (h : i ∈ st.issues) : i ∈ (scanGo stmts idx st).issues := by
  induction stmts generalizing idx st with
  | nil => exact h
  | cons s rest ih =>
    apply ih
    rw [processStmt_issues]
    split_ifs <;> simp [h]

theorem scanGo_risk_ten {stmts : List Statement} {idx : Nat} {st : ScanState}
    (h : st.maxRiskLevel = 10) : (scanGo stmts idx st).maxRiskLevel = 10 := by
  induction stmts generalizing idx st with
  | nil => exact h
  | cons s rest ih =>
    apply ih
    rw [processStmt_risk]
    split_ifs <;> simp [h]

theorem scanGo_risk_le {stmts : List Statement} {idx : Nat} {st : ScanState}
    (h : st.maxRiskLevel ≤ 10) : (scanGo stmts idx st).maxRiskLevel ≤ 10 := by
  induction stmts generalizing idx st with
  | nil => exact h
  | cons s rest ih =>
    apply ih
    rw [processStmt_risk]
    split_ifs <;> simp [h]

theorem scanGo_fullAdmin {stmts : List Statement} {i : Nat} {s : Statement} :
    ∀ (idx : Nat) (st : ScanState), stmts[i]? = some s →
    (toStrList s.Action).contains "*" = true →
    (toStrList s.Resource).contains "*" = true →
    effectOf s = "Allow" →
    fullAdminIssue (idx + i) ∈ (scanGo stmts idx st).issues ∧
      (scanGo stmts idx st).maxRiskLevel = 10 := by
  induction stmts generalizing i with
  | nil => intro idx st hget; simp at hget
  | cons hd tl ih =>
    intro idx st hget ha hr he
    cases i with
    | zero =>
      have hhd : hd = s := by simpa using hget
      subst hhd
      have hiss : fullAdminIssue idx ∈ (processStmt st idx hd).issues := by
        rw [processStmt_issues, if_pos ha, if_pos ⟨hr, he⟩]
        simp
      have hrk : (processStmt st idx hd).maxRiskLevel = 10 := by
        rw [processStmt_risk, if_pos ha, if_pos ⟨hr, he⟩]
      rw [Nat.add_zero]
      simp only [scanGo]
      exact ⟨scanGo_issues_mono hiss, scanGo_risk_ten hrk⟩
    | succ j =>
      have hget2 : tl[j]? = some s := by simpa using hget
      have hrec := ih (idx + 1) (processStmt st idx hd) hget2 ha hr he
      have harith : idx + 1 + j = idx + (j + 1) := by omega
      rw [harith] at hrec
      simp only [scanGo]
      exact hrec

/-! ### Wildcard-phase and matcher lemmas -/

theorem wildcardPhase_allowed (st : ScanState) : (wildcardPhase st).allowed = st.allowed := by
  simp only [wildcardPhase]
  split_ifs <;> rfl

theorem wildcardPhase_denied (st : ScanState) : (wildcardPhase st).denied = st.denied := by
  simp only [wildcardPhase]
  split_ifs <;> rfl

theorem wildcardPhase_of_fullAdmin {st : ScanState}
    (h : st.issues.any (fun i => i.type == "FULL_ADMIN") = true) :
    wildcardPhase st = st := by
  simp [wildcardPhase, h]

theorem wildcardPhase_no_wildcards {st : ScanState}
    (h1 : st.hasWildcardAction = false) (h2 : st.hasWildcardResource = false) :
    wildcardPhase st = st := by
  simp [wildcardPhase, h1, h2]

theorem matchGo_eq (allowed denied : List String) (entries : List (String × MethodInfo))
    (issues : List Issue) (risk : Nat) (det : List DetectedMethod) :
    matchGo allowed denied entries issues risk det =
      (issues ++ (entries.filter (fun e => matchCond allowed denied e.2)).map
          (fun e => escIssue e.1 e.2),
       (entries.filter (fun e => matchCond allowed denied e.2)).foldl
          (fun r e => max r e.2.riskLevel) risk,
       det ++ (entries.filter (fun e => matchCond allowed denied e.2)).map
          (fun e => mkDetected e.1 e.2)) := by
  induction entries generalizing issues risk det with
  | nil => simp [matchGo]
  | cons e rest ih =>
    by_cases hc : matchCond allowed denied e.2 = true
    · simp [matchGo, hc, ih, List.filter_cons]
    · simp [matchGo, hc, ih, List.filter_cons]

theorem riskFold_ge (l : List (String × MethodInfo)) (r : Nat) :
    r ≤ l.foldl (fun acc e => max acc e.2.riskLevel) r := by
  induction l generalizing r with
  | nil => simp
  | cons e rest ih =>
    simp only [List.foldl_cons]
    exact le_trans (le_max_left _ _) (ih _)

theorem riskFold_le {l : List (String × MethodInfo)} {r : Nat} (hr : r ≤ 10)
    (hl : ∀ e ∈ l, e.2.riskLevel ≤ 10) :
    l.foldl (fun acc e => max acc e.2.riskLevel) r ≤ 10 := by
  induction l generalizing r with
  | nil => simpa using hr
  | cons e rest ih =>
    simp only [List.foldl_cons]
    exact ih (max_le hr (hl e (by simp))) (fun x hx => hl x (by simp [hx]))

theorem catalog_risk_le : ∀ e ∈ ESCALATION_METHODS, e.2.riskLevel ≤ 10 := by decide

theorem catalog_names_nodup : (ESCALATION_METHODS.map Prod.fst).Nodup := by decide

theorem keyUnique {l : List (String × MethodInfo)} (hnd : (l.map Prod.fst).Nodup)
    {n : String} {i j : MethodInfo} (hi : (n, i) ∈ l) (hj : (n, j) ∈ l) : i = j := by
  induction l with
  | nil => simp at hi
  | cons e rest ih =>
    simp only [List.map_cons, List.nodup_cons] at hnd
    rcases List.mem_cons.mp hi with hie | hie
    · rcases List.mem_cons.mp hj with hje | hje
      · rw [← hie] at hje
        exact congrArg Prod.snd hje.symm
      · exfalso
        apply hnd.1
        rw [← hie]
        exact List.mem_map.mpr ⟨(n, j), hje, rfl⟩
    · rcases List.mem_cons.mp hj with hje | hje
      · exfalso
        apply hnd.1
        rw [← hje]
        exact List.mem_map.mpr ⟨(n, i), hie, rfl⟩
      · exact ih hnd.2 hie hje

theorem mkDetected_method (n : String) (i : MethodInfo) :
    (mkDetected n i).method = n := rfl

theorem matchCond_degenerate : ∀ e ∈ ESCALATION_METHODS, matchCond [] [] e.2 = false := by
  decide

theorem mem_detected_names {pd : Option Document} {n : String} :
    n ∈ (analyzePolicyForShadowAdmin pd).detectedMethods.map DetectedMethod.method ↔
      ∃ e ∈ ESCALATION_METHODS, e.1 = n ∧
        matchCond (closureOf pd).allowed (closureOf pd).denied e.2 = true := by
  match pd with
  | none =>
    simp only [analyzePolicyForShadowAdmin, degenerateResult, closureOf, initScan,
      List.map_nil, List.not_mem_nil, false_iff]
    rintro ⟨e, he, _, hc⟩
    rw [matchCond_degenerate e he] at hc
    cases hc
  | some d =>
    match hS : d.Statement with
    | none =>
      simp only [analyzePolicyForShadowAdmin, degenerateResult, closureOf, initScan, hS,
        List.map_nil, List.not_mem_nil, false_iff]
      rintro ⟨e, he, _, hc⟩
      rw [matchCond_degenerate e he] at hc
      cases hc
    | some sv =>
      simp only [analyzePolicyForShadowAdmin, closureOf, hS]
      rw [matchGo_eq]
      simp only [List.nil_append, List.map_map, List.mem_map, List.mem_filter,
        wildcardPhase_allowed, wildcardPhase_denied, Function.comp]
      constructor
      · rintro ⟨e, ⟨hmem, hcond⟩, hname⟩
        exact ⟨e, hmem, by simpa [mkDetected_method] using hname, hcond⟩
      · rintro ⟨e, hmem, hname, hcond⟩
        exact ⟨e, ⟨hmem, hcond⟩, by simpa [mkDetected_method] using hname⟩

theorem scanGo_no_wildcards {stmts : List Statement}
    (ha : ∀ s ∈ stmts, (toStrList s.Action).contains "*" = false)
    (hr : ∀ s ∈ stmts, (toStrList s.Resource).contains "*" = false) :
    ∀ (idx : Nat) (st : ScanState),
    (scanGo stmts idx st).issues = st.issues ∧
    (scanGo stmts idx st).hasWildcardAction = st.hasWildcardAction ∧
    (scanGo stmts idx st).hasWildcardResource = st.hasWildcardResource ∧
    (scanGo stmts idx st).maxRiskLevel = st.maxRiskLevel := by
  induction stmts with
  | nil => exact fun idx st => ⟨rfl, rfl, rfl, rfl⟩
  | cons s rest ih =>
    intro idx st
    have ha0 := ha s (by simp)
    have hr0 := hr s (by simp)
    have ha0m : "*" ∉ toStrList s.Action := by simpa using ha0
    have hr0m : "*" ∉ toStrList s.Resource := by simpa using hr0
    have step := ih (fun x hx => ha x (by simp [hx])) (fun x hx => hr x (by simp [hx]))
      (idx + 1) (processStmt st idx s)
    simp only [scanGo]
    refine ⟨?_, ?_, ?_, ?_⟩
    · rw [step.1, processStmt_issues]
      simp [ha0, ha0m]
    · rw [step.2.1, processStmt_hasWA]
      simp [ha0, ha0m]
    · rw [step.2.2.1, processStmt_hasWR]
      simp [hr0, hr0m]
    · rw [step.2.2.2, processStmt_risk]
      simp [ha0, ha0m]

/-! ### Claim theorems -/

/-- C8: for every input that is null or a document without a Statement
field, the shadow-admin analysis returns, without throwing, issues `[]`,
riskLevel `0`, detectedMethods `[]` and summary
`"No policy statements found"` (the embedding is a total function, so no
exception is possible on this path). -/
theorem c8_degenerate_analysis (pd : Option Document)
    (h : pd = none ∨ ∃ d, pd = some d ∧ d.Statement = none) :
    analyzePolicyForShadowAdmin pd =
      { issues := [], riskLevel := 0, detectedMethods := [],
        summary := "No policy statements found", stats := none } := by
  rcases h with rfl | ⟨d, rfl, hd⟩
  · rfl
  · simp [analyzePolicyForShadowAdmin, hd, degenerateResult]

/-- Witness for C8 at the concrete input `null`. -/
theorem c8_degenerate_analysis_witness :
    analyzePolicyForShadowAdmin none =
      { issues := [], riskLevel := 0, detectedMethods := [],
        summary := "No policy statements found", stats := none } :=
  c8_degenerate_analysis none (Or.inl rfl)

/-- C3: whenever some statement has effect Allow, the literal `"*"` among
its actions and the literal `"*"` among its resources, the analysis yields
riskLevel 10 and a critical FULL_ADMIN issue scoped to that statement
index. -/
theorem c3_full_admin_statement (d : Document) (sv : StmtVal)
    (hS : d.Statement = some sv) (i : Nat) (stmt : Statement)
    (hget : (toStmtList sv)[i]? = some stmt)
    (heff : effectOf stmt = "Allow")
    (hact : "*" ∈ toStrList stmt.Action)
    (hres : "*" ∈ toStrList stmt.Resource) :
    (analyzePolicyForShadowAdmin (some d)).riskLevel = 10 ∧
    ∃ issue ∈ (analyzePolicyForShadowAdmin (some d)).issues,
      issue.type = "FULL_ADMIN" ∧ issue.severity = "critical" ∧
      issue.statementIndex = Int.ofNat i := by
  have hactb : (toStrList stmt.Action).contains "*" = true := by simpa using hact
  have hresb : (toStrList stmt.Resource).contains "*" = true := by simpa using hres
  have hscan := scanGo_fullAdmin 0 initScan hget hactb hresb heff
  rw [Nat.zero_add] at hscan
  have hany : (scanGo (toStmtList sv) 0 initScan).issues.any
      (fun x => x.type == "FULL_ADMIN") = true :=
    List.any_eq_true.mpr ⟨fullAdminIssue i, hscan.1, by simp [fullAdminIssue]⟩
  have hwp := wildcardPhase_of_fullAdmin hany
  simp only [analyzePolicyForShadowAdmin, hS, hwp]
  rw [matchGo_eq]
  constructor
  · exact Nat.le_antisymm
      (riskFold_le (by rw [hscan.2]) (fun e he =>
        catalog_risk_le e (List.mem_of_mem_filter he)))
      (by rw [← hscan.2]; exact riskFold_ge _ _)
  · exact ⟨fullAdminIssue i, List.mem_append_left _ hscan.1, rfl, rfl, rfl⟩

/-- Witness for C3 at `fullAdminDoc`, whose second statement (index 1)
grants `*` on `*`. -/
theorem c3_full_admin_statement_witness :
    (analyzePolicyForShadowAdmin (some fullAdminDoc)).riskLevel = 10 ∧
    ∃ issue ∈ (analyzePolicyForShadowAdmin (some fullAdminDoc)).issues,
      issue.type = "FULL_ADMIN" ∧ issue.severity = "critical" ∧
      issue.statementIndex = Int.ofNat 1 :=
  c3_full_admin_statement fullAdminDoc _ rfl 1 _ rfl (by decide) (by decide) (by decide)

/-- C10: wildcard Deny actions are stored verbatim in the denied set and
never expanded, so only exact membership rejects a technique: with an
Allow of `iam:attachuserpolicy` and a separate `Deny iam:*` (or `Deny *`)
statement, AttachUserPolicy is still detected. -/
theorem c10_wildcard_deny_not_expanded :
    (closureOf (some denyIamStarDoc)).denied = ["iam:*"] ∧
    "AttachUserPolicy" ∈ (analyzePolicyForShadowAdmin
      (some denyIamStarDoc)).detectedMethods.map DetectedMethod.method ∧
    (closureOf (some denyStarDoc)).denied = ["*"] ∧
    "AttachUserPolicy" ∈ (analyzePolicyForShadowAdmin
      (some denyStarDoc)).detectedMethods.map DetectedMethod.method := by
  decide

/-- C5: against a catalog whose only service is S3 with prefix `s3` and
actions GetObject, PutObject, ListBucket, the pattern `s3:Get*` expands to
exactly `["s3:GetObject"]` (count 1) and the pattern `s3:*` expands to 3
actions. -/
theorem c5_expansion_counts :
    (PolicyExpansion.expandPattern (PolicyExpansion.buildActionsIndex s3Catalog)
      "s3:Get*").expandedCount = 1 ∧
    (PolicyExpansion.expandPattern (PolicyExpansion.buildActionsIndex s3Catalog)
      "s3:Get*").expandedActions = ["s3:GetObject"] ∧
    (PolicyExpansion.expandPattern (PolicyExpansion.buildActionsIndex s3Catalog)
      "s3:*").expandedCount = 3 := by
  decide

/-- C7 (code bug evidence): `calculatePolicyDiff` on two non-null
documents that lack a Statement field does not return a VersionDiff; it
reads `.Action` of `undefined` and throws, modeled as `.error`. -/
theorem c7_diff_throws_on_missing_statement :
    PolicyVisualizer.calculatePolicyDiff (some noStatementDoc) (some noStatementDoc) =
      Except.error "TypeError: Cannot read properties of undefined" := by
  rfl

/-- C9: before initialization `analyzePolicy` fails with the
distinguishable initialization error and produces no ExpansionResult;
after a successful `initialize` it succeeds on the same document. -/
theorem c9_initialization_contract (pd : Option Document) :
    PolicyExpansion.analyzePolicy PolicyExpansion.PEState.start pd =
      Except.error "PolicyExpansion not initialized. Call initialize() first." ∧
    ∀ cat : PolicyExpansion.Catalog, ∃ r,
      PolicyExpansion.analyzePolicy
        (PolicyExpansion.initEngine PolicyExpansion.PEState.start cat) pd =
        Except.ok r := by
  refine ⟨rfl, ?_⟩
  intro cat
  simp only [PolicyExpansion.analyzePolicy, PolicyExpansion.initEngine,
    PolicyExpansion.PEState.start]
  match pd with
  | none => exact ⟨_, rfl⟩
  | some d =>
    match hS : d.Statement with
    | none => simp only [hS]; exact ⟨_, rfl⟩
    | some sv => simp only [hS]; exact ⟨_, rfl⟩

/-- C4 counterexample: a document with no `"*"` action and no technique
satisfied, but with a `"*"` resource, still produces a WILDCARD_RESOURCE
issue and riskLevel 6, so the claim as stated is false. -/
theorem c4_counterexample :
    (∀ stmt ∈ docStmtsOf (some wildcardResourceDoc), "*" ∉ toStrList stmt.Action) ∧
    (∀ e ∈ ESCALATION_METHODS,
      reqSat (closureOf (some wildcardResourceDoc)).allowed e.2 = false) ∧
    ¬ ((analyzePolicyForShadowAdmin (some wildcardResourceDoc)).riskLevel = 0 ∧
       (analyzePolicyForShadowAdmin (some wildcardResourceDoc)).issues = []) := by
  decide

/-- C4 (amended): when no statement has `"*"` among its actions, no
statement has `"*"` among its resources, and no technique has all its
required permissions satisfied by the allowed set, the analysis yields
riskLevel 0 and no issues. -/
theorem c4_no_findings (pd : Option Document)
    (hact : ∀ stmt ∈ docStmtsOf pd, "*" ∉ toStrList stmt.Action)
    (hres : ∀ stmt ∈ docStmtsOf pd, "*" ∉ toStrList stmt.Resource)
    (hsat : ∀ e ∈ ESCALATION_METHODS, reqSat (closureOf pd).allowed e.2 = false) :
    (analyzePolicyForShadowAdmin pd).riskLevel = 0 ∧
    (analyzePolicyForShadowAdmin pd).issues = [] := by
  match pd with
  | none => exact ⟨rfl, rfl⟩
  | some d =>
    match hS : d.Statement with
    | none => simp [analyzePolicyForShadowAdmin, hS, degenerateResult]
    | some sv =>
      have hact2 : ∀ s ∈ toStmtList sv, (toStrList s.Action).contains "*" = false := by
        intro s hs
        simpa using hact s (by simp [docStmtsOf, hS, hs])
      have hres2 : ∀ s ∈ toStmtList sv, (toStrList s.Resource).contains "*" = false := by
        intro s hs
        simpa using hres s (by simp [docStmtsOf, hS, hs])
      have hscan := scanGo_no_wildcards hact2 hres2 0 initScan
      have hwa : (scanGo (toStmtList sv) 0 initScan).hasWildcardAction = false := by
        simpa [initScan] using hscan.2.1
      have hwr : (scanGo (toStmtList sv) 0 initScan).hasWildcardResource = false := by
        simpa [initScan] using hscan.2.2.1
      have hwp := wildcardPhase_no_wildcards hwa hwr
      have hclo : closureOf (some d) = scanGo (toStmtList sv) 0 initScan := by
        simp [closureOf, hS]
      have hfilter : ESCALATION_METHODS.filter
          (fun e => matchCond (scanGo (toStmtList sv) 0 initScan).allowed
            (scanGo (toStmtList sv) 0 initScan).denied e.2) = [] := by
        rw [List.filter_eq_nil_iff]
        intro e he
        have h1 := hsat e he
        rw [hclo] at h1
        simp [matchCond, h1]
      simp only [analyzePolicyForShadowAdmin, hS, hwp]
      rw [matchGo_eq, hfilter]
      simp only [List.map_nil, List.append_nil, List.foldl_nil]
      have hiss : (scanGo (toStmtList sv) 0 initScan).issues = [] := by
        simpa [initScan] using hscan.1
      have hrk : (scanGo (toStmtList sv) 0 initScan).maxRiskLevel = 0 := by
        simpa [initScan] using hscan.2.2.2
      exact ⟨hrk, hiss⟩

/-- Witness for the amended C4 at a single-statement document with a
specific action and resource. -/
theorem c4_no_findings_witness :
    (analyzePolicyForShadowAdmin (some safeDoc)).riskLevel = 0 ∧
    (analyzePolicyForShadowAdmin (some safeDoc)).issues = [] :=
  c4_no_findings (some safeDoc) (by decide) (by decide) (by decide)

theorem denyFold_mono {actions de : List String} {y : String} (h : y ∈ de) :
    y ∈ actions.foldl (fun d x => addMem d (normalizeAction x)) de := by
  induction actions generalizing de with
  | nil => exact h
  | cons x rest ih =>
    simp only [List.foldl_cons]
    exact ih (addMem_subset h)

theorem denyFold_mem {actions de : List String} {a : String} (h : a ∈ actions) :
    normalizeAction a ∈ actions.foldl (fun d x => addMem d (normalizeAction x)) de := by
  induction actions generalizing de with
  | nil => simp at h
  | cons x rest ih =>
    simp only [List.foldl_cons]
    rcases List.mem_cons.mp h with rfl | h2
    · exact denyFold_mono (mem_addMem.mpr (Or.inr rfl))
    · exact ih h2

theorem processStmt_denied_mono {st : ScanState} {idx : Nat} {s : Statement}
    {y : String} (h : y ∈ st.denied) : y ∈ (processStmt st idx s).denied := by
  rw [processStmt_denied]
  by_cases hA : effectOf s = "Allow"
  · rw [hA, collectPerms_allow]
    exact h
  · by_cases hD : effectOf s = "Deny"
    · rw [hD, collectPerms_deny]
      exact denyFold_mono h
    · rw [collectPerms_other hA hD]
      exact h

theorem scanGo_denied_mono {stmts : List Statement} {idx : Nat} {st : ScanState}
    {y : String} (h : y ∈ st.denied) : y ∈ (scanGo stmts idx st).denied := by
  induction stmts generalizing idx st with
  | nil => exact h
  | cons s rest ih =>
    simp only [scanGo]
    exact ih (processStmt_denied_mono h)

theorem scanGo_denied_of_deny {stmts : List Statement} {s : Statement} {a : String}
    (he : effectOf s = "Deny") (ha : a ∈ toStrList s.Action) :
    ∀ {idx : Nat} {st : ScanState}, s ∈ stmts →
    normalizeAction a ∈ (scanGo stmts idx st).denied := by
  induction stmts with
  | nil => intro idx st hs; simp at hs
  | cons hd rest ih =>
    intro idx st hs
    simp only [scanGo]
    rcases List.mem_cons.mp hs with rfl | h2
    · apply scanGo_denied_mono
      rw [processStmt_denied, he, collectPerms_deny]
      exact denyFold_mem ha
    · exact ih h2

/-- C2: if a document grants all required permissions of a catalog
technique but a separate Deny statement contains (after normalization)
one of its required permission strings, the technique does not appear in
detectedMethods. -/
theorem c2_denial_precedence (d : Document) (name : String) (info : MethodInfo)
    (hentry : (name, info) ∈ ESCALATION_METHODS)
    (_hgrant : reqSat (closureOf (some d)).allowed info = true)
    (hdeny : ∃ s ∈ docStmtsOf (some d), effectOf s = "Deny" ∧
      ∃ a ∈ toStrList s.Action, ∃ p ∈ info.permissions, normalizeAction a = jsToLower p) :
    name ∉ (analyzePolicyForShadowAdmin (some d)).detectedMethods.map
      DetectedMethod.method := by
  intro hmem
  rcases mem_detected_names.mp hmem with ⟨e, he, hename, hcond⟩
  have hpair : (name, e.2) ∈ ESCALATION_METHODS := by
    rw [← hename]
    simpa using he
  have heq : e.2 = info := keyUnique catalog_names_nodup hpair hentry
  rw [heq] at hcond
  simp only [matchCond, Bool.and_eq_true, Bool.not_eq_eq_eq_not, Bool.not_true] at hcond
  rcases hdeny with ⟨s, hs, hsD, a, ha, p, hp, hnorm⟩
  match hS : d.Statement with
  | none =>
    rw [docStmtsOf] at hs
    simp [hS] at hs
  | some sv =>
    have hsin : s ∈ toStmtList sv := by
      rw [docStmtsOf] at hs
      simpa [hS] using hs
    have hden : normalizeAction a ∈ (closureOf (some d)).denied := by
      simp only [closureOf, hS]
      exact scanGo_denied_of_deny hsD ha hsin
    have hany : anyDenied (closureOf (some d)).denied info = true := by
      apply List.any_eq_true.mpr
      refine ⟨jsToLower p, List.mem_map.mpr ⟨p, hp, rfl⟩, ?_⟩
      rw [← hnorm]
      simpa using hden
    rw [hany] at hcond
    cases hcond.2

/-- Witness for C2: the AttachUserPolicy grant is cancelled by an exact
Deny of the same permission in a separate statement. -/
theorem c2_denial_precedence_witness :
    "AttachUserPolicy" ∉ (analyzePolicyForShadowAdmin
      (some denyExactDoc)).detectedMethods.map DetectedMethod.method :=
  c2_denial_precedence denyExactDoc "AttachUserPolicy"
    ⟨["iam:attachuserpolicy"], ["iam:listusers"], 10, "IAM Policy Manipulation",
      "Can attach AdministratorAccess policy to own user"⟩
    (by decide) (by decide) (by decide)

/-! ### The `iam:*` closure characterization (claim C1) -/

theorem allowFold_iamStar {actions : List String} :
    (∀ a ∈ actions, a = "iam:*") → ∀ {al : List String} {y : String},
    y ∈ actions.foldl allowGrow al ↔
      y ∈ al ∨ (actions ≠ [] ∧ (y = "iam:*" ∨
        ∃ e ∈ ESCALATION_METHODS, y ∈ e.2.permissions ∧
          strStartsWith y "iam:" = true)) := by
  induction actions with
  | nil => intro _ al y; simp
  | cons a rest ih =>
    intro hall al y
    have ha : a = "iam:*" := hall a (by simp)
    subst ha
    simp only [List.foldl_cons]
    rw [ih (fun x hx => hall x (by simp [hx])), mem_allowGrow_iamStar]
    constructor
    · rintro ((h | h | h) | ⟨_, h⟩)
      · exact Or.inl h
      · exact Or.inr ⟨by simp, Or.inl h⟩
      · exact Or.inr ⟨by simp, Or.inr h⟩
      · exact Or.inr ⟨by simp, h⟩
    · rintro (h | ⟨_, h⟩)
      · exact Or.inl (Or.inl h)
      · exact Or.inl (Or.inr h)

theorem scanC1_allowed {stmts : List Statement}
    (hA : ∀ s ∈ stmts, effectOf s = "Allow")
    (hact : ∀ s ∈ stmts, ∀ a ∈ toStrList s.Action, a = "iam:*") :
    ∀ (idx : Nat) (st : ScanState),
    (∀ y, y ∈ (scanGo stmts idx st).allowed ↔
      y ∈ st.allowed ∨ ((∃ s ∈ stmts, toStrList s.Action ≠ []) ∧ (y = "iam:*" ∨
        ∃ e ∈ ESCALATION_METHODS, y ∈ e.2.permissions ∧
          strStartsWith y "iam:" = true))) ∧
    (scanGo stmts idx st).denied = st.denied := by
  induction stmts with
  | nil => exact fun idx st => ⟨fun y => by simp [scanGo], rfl⟩
  | cons s rest ih =>
    intro idx st
    have hA0 : effectOf s = "Allow" := hA s (by simp)
    have hact0 : ∀ a ∈ toStrList s.Action, a = "iam:*" := hact s (by simp)
    have ihr := ih (fun x hx => hA x (by simp [hx]))
      (fun x hx => hact x (by simp [hx]))
      (idx + 1) (processStmt st idx s)
    have hPA : (processStmt st idx s).allowed =
        (toStrList s.Action).foldl allowGrow st.allowed := by
      rw [processStmt_allowed, hA0, collectPerms_allow]
    have hPD : (processStmt st idx s).denied = st.denied := by
      rw [processStmt_denied, hA0, collectPerms_allow]
    constructor
    · intro y
      simp only [scanGo]
      rw [ihr.1 y, hPA, allowFold_iamStar hact0]
      simp only [List.exists_mem_cons_iff]
      constructor
      · rintro ((h | h) | h)
        · exact Or.inl h
        · exact Or.inr ⟨Or.inl h.1, h.2⟩
        · exact Or.inr ⟨Or.inr h.1, h.2⟩
      · rintro (h | ⟨(h1 | h1), h2⟩)
        · exact Or.inl (Or.inl h)
        · exact Or.inl (Or.inr ⟨h1, h2⟩)
        · exact Or.inr ⟨h1, h2⟩
    · simp only [scanGo]
      rw [ihr.2, hPD]

theorem mem_iamModelAllowed {y : String} :
    y ∈ iamModelAllowed ↔ y = "iam:*" ∨
      ∃ e ∈ ESCALATION_METHODS, y ∈ e.2.permissions ∧
        strStartsWith y "iam:" = true := by
  simp only [iamModelAllowed, List.mem_cons, List.mem_filter, List.mem_flatMap]
  constructor
  · rintro (h | ⟨⟨e, he, hp⟩, hs⟩)
    · exact Or.inl h
    · exact Or.inr ⟨e, he, hp, hs⟩
  · rintro (h | ⟨e, he, hp, hs⟩)
    · exact Or.inl h
    · exact Or.inr ⟨⟨e, he, hp⟩, hs⟩

theorem contains_congr {l1 l2 : List String} (h : ∀ y, y ∈ l1 ↔ y ∈ l2)
    (x : String) : l1.contains x = l2.contains x := by
  have h1 : (l1.contains x = true) = (x ∈ l1) := by simp
  have h2 : (l2.contains x = true) = (x ∈ l2) := by simp
  cases hc1 : l1.contains x
  · cases hc2 : l2.contains x
    · rfl
    · exfalso
      have hx2 : x ∈ l2 := h2 ▸ hc2
      have hx1 : x ∈ l1 := (h x).mpr hx2
      rw [← h1] at hx1
      rw [hc1] at hx1
      cases hx1
  · have hx1 : x ∈ l1 := h1 ▸ hc1
    have hx2 : x ∈ l2 := (h x).mp hx1
    rw [← h2] at hx2
    exact hx2.symm

theorem all_congrB {α : Type} {l : List α} {p q : α → Bool}
    (h : ∀ a ∈ l, p a = q a) : l.all p = l.all q := by
  induction l with
  | nil => rfl
  | cons a rest ih =>
    simp only [List.all_cons]
    rw [h a (by simp), ih (fun x hx => h x (by simp [hx]))]

theorem reqSat_congr {al1 al2 : List String}
    (h : ∀ y, y ∈ al1 ↔ y ∈ al2) (info : MethodInfo) :
    reqSat al1 info = reqSat al2 info := by
  unfold reqSat
  apply all_congrB
  intro perm _
  rw [contains_congr h perm, contains_congr h "*",
      contains_congr h (splitHead perm ++ ":*")]

/-- C1: for every document all of whose statements are Allow statements
whose only action string is `iam:*` (at least one statement carrying it),
a catalog technique is detected exactly when all of its required
permissions carry the `iam:` prefix (so AttachUserPolicy and
PutUserPolicy are detected, while PassRoleToLambda and every other
technique requiring a non-iam permission is not). -/
theorem c1_iam_wildcard_closure (d : Document) (sv : StmtVal)
    (hS : d.Statement = some sv)
    (hA : ∀ s ∈ toStmtList sv, effectOf s = "Allow")
    (hact : ∀ s ∈ toStmtList sv, ∀ a ∈ toStrList s.Action, a = "iam:*")
    (hEx : ∃ s ∈ toStmtList sv, "iam:*" ∈ toStrList s.Action) :
    ∀ e ∈ ESCALATION_METHODS,
      (e.1 ∈ (analyzePolicyForShadowAdmin (some d)).detectedMethods.map
          DetectedMethod.method ↔
        e.2.permissions.all (fun p => strStartsWith p "iam:") = true) := by
  intro e he
  have hchar := scanC1_allowed hA hact 0 initScan
  have hnonempty : ∃ s ∈ toStmtList sv, toStrList s.Action ≠ [] := by
    rcases hEx with ⟨s, hs, hmem⟩
    refine ⟨s, hs, fun hnil => ?_⟩
    rw [hnil] at hmem
    simp at hmem
  have hmemiff : ∀ y, y ∈ (closureOf (some d)).allowed ↔ y ∈ iamModelAllowed := by
    intro y
    simp only [closureOf, hS]
    rw [hchar.1 y, mem_iamModelAllowed]
    constructor
    · rintro (h | ⟨_, h⟩)
      · simp [initScan] at h
      · exact h
    · intro h
      exact Or.inr ⟨hnonempty, h⟩
  have hden : (closureOf (some d)).denied = [] := by
    simp only [closureOf, hS]
    rw [hchar.2]
    rfl
  have hdec : ∀ e2 ∈ ESCALATION_METHODS,
      matchCond iamModelAllowed [] e2.2 =
        e2.2.permissions.all (fun p => strStartsWith p "iam:") := by
    decide
  rw [mem_detected_names]
  constructor
  · rintro ⟨e2, he2, hname, hcond⟩
    have hpair : (e.1, e2.2) ∈ ESCALATION_METHODS := by
      rw [← hname]
      simpa using he2
    have hpair2 : (e.1, e.2) ∈ ESCALATION_METHODS := by simpa using he
    have heq : e2.2 = e.2 := keyUnique catalog_names_nodup hpair hpair2
    rw [heq] at hcond
    rw [matchCond, reqSat_congr hmemiff, hden] at hcond
    rw [← matchCond, hdec e he] at hcond
    exact hcond
  · intro hall
    refine ⟨e, he, rfl, ?_⟩
    rw [matchCond, reqSat_congr hmemiff, hden, ← matchCond, hdec e he]
    exact hall

/-- Witness for C1 at `iamStarDoc`: AttachUserPolicy (all-iam
permissions) is detected and PassRoleToLambda (needs lambda permissions)
is not. -/
theorem c1_iam_wildcard_closure_witness :
    ("AttachUserPolicy" ∈ (analyzePolicyForShadowAdmin
        (some iamStarDoc)).detectedMethods.map DetectedMethod.method) ∧
    ¬ ("PassRoleToLambda" ∈ (analyzePolicyForShadowAdmin
        (some iamStarDoc)).detectedMethods.map DetectedMethod.method) := by
  have h := c1_iam_wildcard_closure iamStarDoc _ rfl (by decide) (by decide)
    ⟨_, by constructor; constructor; decide⟩
  constructor
  · exact (h ("AttachUserPolicy",
      ⟨["iam:attachuserpolicy"], ["iam:listusers"], 10, "IAM Policy Manipulation",
        "Can attach AdministratorAccess policy to own user"⟩) (by decide)).mpr (by decide)
  · intro hmem
    have hbad := (h ("PassRoleToLambda",
      ⟨["iam:passrole", "lambda:createfunction", "lambda:invokefunction"], ["iam:listroles"],
        10, "PassRole Escalation",
        "Can create Lambda with privileged role and invoke it"⟩) (by decide)).mp hmem
    exact absurd hbad (by decide)

/-! ### Version-diff lemmas (claim C6) -/

theorem stmtListJS_of_some {d : Document} {sv : StmtVal} (h : d.Statement = some sv) :
    PolicyVisualizer.stmtListJS d = (toStmtList sv).map some := by
  cases sv <;> simp [PolicyVisualizer.stmtListJS, toStmtList, h]

theorem collectGo_map_some (l : List Statement) (acc : List String × List String) :
    PolicyVisualizer.collectGo (l.map some) acc =
      .ok (l.foldl PolicyVisualizer.collectStep acc) := by
  induction l generalizing acc with
  | nil => rfl
  | cons s rest ih =>
    simp only [List.map_cons, PolicyVisualizer.collectGo, List.foldl_cons]
    exact ih _

theorem splitRemovedGo_eq (set2 : List String) :
    ∀ (set1 : List String) (acc : List String × List String),
    set1.foldl (fun acc a =>
        if set2.contains a then (acc.1, acc.2 ++ [a]) else (acc.1 ++ [a], acc.2)) acc =
      (acc.1 ++ set1.filter (fun a => !set2.contains a),
       acc.2 ++ set1.filter (fun a => set2.contains a)) := by
  intro set1
  induction set1 with
  | nil => intro acc; simp
  | cons a rest ih =>
    intro acc
    simp only [List.foldl_cons, List.filter_cons]
    by_cases h : set2.contains a = true
    · have hm : a ∈ set2 := by simpa using h
      rw [if_pos h, ih]
      simp [h, hm]
    · have hm : a ∉ set2 := by simpa using h
      rw [if_neg h, ih]
      simp [h, hm]

theorem splitRemoved_eq (set1 set2 : List String) :
    PolicyVisualizer.splitRemoved set1 set2 =
      (set1.filter (fun a => !set2.contains a),
       set1.filter (fun a => set2.contains a)) := by
  unfold PolicyVisualizer.splitRemoved
  rw [splitRemovedGo_eq]
  simp

theorem computeAddedGo_eq (set1 : List String) :
    ∀ (set2 : List String) (acc : List String),
    set2.foldl (fun acc a => if set1.contains a then acc else acc ++ [a]) acc =
      acc ++ set2.filter (fun a => !set1.contains a) := by
  intro set2
  induction set2 with
  | nil => intro acc; simp
  | cons a rest ih =>
    intro acc
    simp only [List.foldl_cons, List.filter_cons]
    by_cases h : set1.contains a = true
    · have hm : a ∈ set1 := by simpa using h
      rw [if_pos h, ih]
      simp [h, hm]
    · have hm : a ∉ set1 := by simpa using h
      rw [if_neg h, ih]
      simp [h, hm]

theorem computeAdded_eq (set1 set2 : List String) :
    PolicyVisualizer.computeAdded set1 set2 =
      set2.filter (fun a => !set1.contains a) := by
  unfold PolicyVisualizer.computeAdded
  rw [computeAddedGo_eq]
  simp

theorem mem_addMemFold {xs : List String} :
    ∀ {l : List String} {y : String}, y ∈ xs.foldl addMem l ↔ y ∈ l ∨ y ∈ xs := by
  induction xs with
  | nil => intro l y; simp
  | cons x rest ih =>
    intro l y
    simp only [List.foldl_cons]
    rw [ih]
    rw [mem_addMem]
    simp only [List.mem_cons]
    tauto

theorem mem_collect_actions {stmts : List Statement} :
    ∀ {acc : List String × List String} {y : String},
    y ∈ (stmts.foldl PolicyVisualizer.collectStep acc).1 ↔
      y ∈ acc.1 ∨ ∃ s ∈ stmts, y ∈ toStrList s.Action := by
  induction stmts with
  | nil => intro acc y; simp
  | cons s rest ih =>
    intro acc y
    simp only [List.foldl_cons]
    rw [ih]
    simp only [PolicyVisualizer.collectStep, mem_addMemFold, List.exists_mem_cons_iff]
    tauto

/-- C6: the version diff is a round trip: `diff(A,B).actions.added` equals
`diff(B,A).actions.removed` and vice versa (likewise for resources), and
`diff(A,A)` has empty added and removed sets with `unchanged` containing
exactly the action strings of the statements of A. -/
theorem c6_diff_round_trip (A B : Document) (sa sb : StmtVal)
    (hA : A.Statement = some sa) (hB : B.Statement = some sb) :
    ∃ dAB dBA dAA,
      PolicyVisualizer.calculatePolicyDiff (some A) (some B) = .ok dAB ∧
      PolicyVisualizer.calculatePolicyDiff (some B) (some A) = .ok dBA ∧
      PolicyVisualizer.calculatePolicyDiff (some A) (some A) = .ok dAA ∧
      dAB.actions.added = dBA.actions.removed ∧
      dAB.actions.removed = dBA.actions.added ∧
      dAB.resources.added = dBA.resources.removed ∧
      dAB.resources.removed = dBA.resources.added ∧
      dAA.actions.added = [] ∧ dAA.actions.removed = [] ∧
      (∀ x, x ∈ dAA.actions.unchanged ↔
        ∃ stmt ∈ toStmtList sa, x ∈ toStrList stmt.Action) := by
  simp only [PolicyVisualizer.calculatePolicyDiff, stmtListJS_of_some hA,
    stmtListJS_of_some hB, collectGo_map_some, computeAdded_eq, splitRemoved_eq]
  refine ⟨_, _, _, rfl, rfl, rfl, rfl, rfl, rfl, rfl, ?_, ?_, ?_⟩
  · rw [List.filter_eq_nil_iff]
    intro x hx
    simp [hx]
  · rw [List.filter_eq_nil_iff]
    intro x hx
    simp [hx]
  · intro x
    simp only [List.mem_filter]
    constructor
    · rintro ⟨hx, _⟩
      have := mem_collect_actions.mp hx
      simpa using this
    · intro hx
      have hm : x ∈ ((toStmtList sa).foldl PolicyVisualizer.collectStep ([], [])).1 :=
        mem_collect_actions.mpr (Or.inr hx)
      exact ⟨hm, by simpa using hm⟩

/-- Witness for C6 at the two concrete sample documents. -/
theorem c6_diff_round_trip_witness :
    ∃ dAB dBA dAA,
      PolicyVisualizer.calculatePolicyDiff (some diffDocA) (some diffDocB) = .ok dAB ∧
      PolicyVisualizer.calculatePolicyDiff (some diffDocB) (some diffDocA) = .ok dBA ∧
      PolicyVisualizer.calculatePolicyDiff (some diffDocA) (some diffDocA) = .ok dAA ∧
      dAB.actions.added = dBA.actions.removed ∧
      dAB.actions.removed = dBA.actions.added ∧
      dAB.resources.added = dBA.resources.removed ∧
      dAB.resources.removed = dBA.resources.added ∧
      dAA.actions.added = [] ∧ dAA.actions.removed = [] ∧
      (∀ x, x ∈ dAA.actions.unchanged ↔
        ∃ stmt ∈ toStmtList (Sum.inr [
          { Effect := some "Allow", Action := some (.inr ["s3:GetObject", "s3:PutObject"]),
            Resource := some (.inl "arn:aws:s3:::b1") }]),
          x ∈ toStrList stmt.Action) :=
  c6_diff_round_trip diffDocA diffDocB _ _ rfl rfl
